import Mathlib

/-!
Shallow embedding of the live navigation and points-of-interest engine of
src/components/TourGuide.tsx, together with theorems checking the
specification of that engine against the embedded code.

Numbers are modelled by real numbers, service strings by String, optional
record fields by Option.  Fetch results are modelled explicitly so that the
error paths of the code become visible branches of the embedded functions.
-/

set_option maxHeartbeats 1000000

/-- A WGS-84 coordinate in degrees, source type Coords = \x7b lat, lon \x7d. -/
structure Coords where
  lat : ℝ
  lon : ℝ

/-- Degree-to-radian conversion, source helper toRad. -/
noncomputable def toRad (deg : ℝ) : ℝ := deg * Real.pi / 180

/-- Source function haversine: great-circle distance with mean Earth radius
6371000 m, via 2 R asin (min 1 (sqrt c)). -/
noncomputable def haversine (a b : Coords) : ℝ :=
  let R : ℝ := 6371000
  let dLat := toRad (b.lat - a.lat)
  let dLon := toRad (b.lon - a.lon)
  let lat1 := toRad a.lat
  let lat2 := toRad b.lat
  let s1 := Real.sin (dLat / 2)
  let s2 := Real.sin (dLon / 2)
  let c := s1 * s1 + Real.cos lat1 * Real.cos lat2 * (s2 * s2)
  2 * R * Real.arcsin (min 1 (Real.sqrt c))

/-- Source helper distanceToManeuver: a maneuver location arrives from the
routing service as a (longitude, latitude) pair and is swapped into
(lat, lon) order before the haversine measurement. -/
noncomputable def distanceToManeuver (frm : Coords) (maneuverLoc : ℝ × ℝ) : ℝ :=
  haversine frm ⟨maneuverLoc.2, maneuverLoc.1⟩

theorem haversine_nonneg (a b : Coords) : 0 ≤ haversine a b := by
  have h0 : (0 : ℝ) ≤ min 1 (Real.sqrt
      (Real.sin (toRad (b.lat - a.lat) / 2) * Real.sin (toRad (b.lat - a.lat) / 2) +
        Real.cos (toRad a.lat) * Real.cos (toRad b.lat) *
          (Real.sin (toRad (b.lon - a.lon) / 2) * Real.sin (toRad (b.lon - a.lon) / 2)))) :=
    le_min zero_le_one (Real.sqrt_nonneg _)
  have := Real.arcsin_nonneg.mpr h0
  simp only [haversine]
  nlinarith [this]

theorem haversine_self (a : Coords) : haversine a a = 0 := by
  simp [haversine, toRad]

theorem haversine_comm (a b : Coords) : haversine a b = haversine b a := by
  have key : ∀ x y : ℝ,
      Real.sin ((y - x) * Real.pi / 180 / 2) * Real.sin ((y - x) * Real.pi / 180 / 2)
        = Real.sin ((x - y) * Real.pi / 180 / 2) * Real.sin ((x - y) * Real.pi / 180 / 2) := by
    intro x y
    rw [show (y - x) * Real.pi / 180 / 2 = -((x - y) * Real.pi / 180 / 2) from by ring,
      Real.sin_neg]
    ring
  simp only [haversine, toRad]
  rw [key a.lat b.lat, key a.lon b.lon, mul_comm (Real.cos (a.lat * Real.pi / 180))]

theorem haversine_equator_degree :
    haversine ⟨0, 0⟩ ⟨0, 1⟩ = 2 * 6371000 * (Real.pi / 360) := by
  have hpos : (0 : ℝ) < Real.pi := Real.pi_pos
  have hsin_nonneg : 0 ≤ Real.sin (Real.pi / 180 / 2) := by
    apply Real.sin_nonneg_of_nonneg_of_le_pi
    · positivity
    · nlinarith
  simp only [haversine, toRad]
  norm_num
  rw [Real.sqrt_mul_self hsin_nonneg, min_eq_right (Real.sin_le_one _),
    Real.arcsin_sin (by nlinarith) (by nlinarith)]
  ring

/-- C7: the embedded haversine distance is nonnegative, zero on equal
coordinates, symmetric, and maps one degree of longitude at the equator to
within one percent of 111195 m. -/
theorem C7_haversine_metric :
    (∀ a b : Coords, 0 ≤ haversine a b)
    ∧ (∀ a : Coords, haversine a a = 0)
    ∧ (∀ a b : Coords, haversine a b = haversine b a)
    ∧ |haversine ⟨0, 0⟩ ⟨0, 1⟩ - 111195| ≤ 111195 / 100 := by
  refine ⟨haversine_nonneg, haversine_self, haversine_comm, ?_⟩
  rw [haversine_equator_degree, abs_le]
  constructor <;> nlinarith [Real.pi_gt_d6, Real.pi_lt_d6]

/-- A maneuver as delivered by the routing service; location is the raw
(longitude, latitude) pair of the service. -/
structure Maneuver where
  type : Option String
  modifier : Option String
  location : ℝ × ℝ

/-- One route step: street name, distance, duration, optional maneuver
(source routeSteps entry and OSRM step shape). -/
structure RouteStep where
  name : String
  distance : ℝ
  duration : ℝ
  maneuver : Option Maneuver

instance : Inhabited RouteStep := ⟨⟨"", 0, 0, none⟩⟩

/-- JS truthiness of the source double-pipe on an optional string: the
fallback is used when the string is absent or empty. -/
def jsOrStr (s : Option String) (dflt : String) : String :=
  match s with
  | some v => if v = "" then dflt else v
  | none => dflt

/-- The instruction text composed in the watchPosition callback:
action is maneuver type double-pipe Proceed, a space plus the modifier is
appended when the modifier is truthy, and a literal on plus the street
name when the name is truthy. -/
def formatInstruction (s : RouteStep) : String :=
  let action := jsOrStr (s.maneuver.bind Maneuver.type) "Proceed"
  let modifier :=
    match s.maneuver.bind Maneuver.modifier with
    | some m => if m = "" then "" else " " ++ m
    | none => ""
  let road := if s.name = "" then "" else " on " ++ s.name
  action ++ modifier ++ road

/-- The nearest-maneuver loop of the watchPosition callback: walk the
steps with the running index, skip steps without a maneuver, keep the
running (bestIdx, bestDist) pair and replace it only on a strictly
smaller distance.  The initial accumulator none stands for the source
pair bestIdx = -1, bestDist = Infinity. -/
noncomputable def scanSteps (c : Coords) : ℕ → List RouteStep → Option (ℕ × ℝ) → Option (ℕ × ℝ)
  | _, [], acc => acc
  | i, s :: rest, acc =>
    match s.maneuver with
    | none => scanSteps c (i + 1) rest acc
    | some m =>
      let d := distanceToManeuver c m.location
      match acc with
      | none => scanSteps c (i + 1) rest (some (i, d))
      | some (bi, bd) =>
        scanSteps c (i + 1) rest (some (if d < bd then (i, d) else (bi, bd)))

/-- The guidance emission of one position update, spec type GuidanceState. -/
structure GuidanceState where
  nextStepIndex : Option ℕ
  distanceToManeuverMeters : Option ℤ
  text : Option String

/-- One position update of the watchPosition callback, reduced to its
pure guidance output: scan for the nearest maneuver; when one is found
emit its index, the rounded best distance and the composed instruction,
otherwise emit the empty guidance state. -/
noncomputable def computeGuidance (steps : List RouteStep) (c : Coords) : GuidanceState :=
  match scanSteps c 0 steps none with
  | some (i, d) =>
    { nextStepIndex := some i
      distanceToManeuverMeters := some (round d)
      text := some (formatInstruction (steps.getD i default)) }
  | none => { nextStepIndex := none, distanceToManeuverMeters := none, text := none }

/-- The indexed candidate list of the scan: the (index, distance) pairs of
the maneuver-bearing steps, in step order. -/
noncomputable def maneuverCands (c : Coords) : ℕ → List RouteStep → List (ℕ × ℝ)
  | _, [] => []
  | i, s :: rest =>
    match s.maneuver with
    | none => maneuverCands c (i + 1) rest
    | some m => (i, distanceToManeuver c m.location) :: maneuverCands c (i + 1) rest

/-- Left fold keeping the first strict minimum of a candidate list. -/
noncomputable def pickFirstMin : Option (ℕ × ℝ) → List (ℕ × ℝ) → Option (ℕ × ℝ)
  | acc, [] => acc
  | acc, x :: xs =>
    pickFirstMin
      (match acc with
       | none => some x
       | some b => some (if x.2 < b.2 then x else b)) xs

theorem scanSteps_eq_pickFirstMin (c : Coords) :
    ∀ (l : List RouteStep) (i : ℕ) (acc : Option (ℕ × ℝ)),
      scanSteps c i l acc = pickFirstMin acc (maneuverCands c i l)
  | [], _, acc => by cases acc <;> rfl
  | s :: rest, i, acc => by
    cases hm : s.maneuver with
    | none =>
      simp only [scanSteps, maneuverCands, hm]
      exact scanSteps_eq_pickFirstMin c rest (i + 1) acc
    | some m =>
      cases acc with
      | none =>
        simp only [scanSteps, maneuverCands, hm, pickFirstMin]
        exact scanSteps_eq_pickFirstMin c rest (i + 1) _
      | some b =>
        obtain ⟨bi, bd⟩ := b
        simp only [scanSteps, maneuverCands, hm, pickFirstMin]
        exact scanSteps_eq_pickFirstMin c rest (i + 1) _

theorem pickFirstMin_eq_none :
    ∀ (xs : List (ℕ × ℝ)) (acc : Option (ℕ × ℝ)),
      pickFirstMin acc xs = none → acc = none ∧ xs = []
  | [], acc => fun h => ⟨h, rfl⟩
  | x :: xs, acc => by
    intro h
    simp only [pickFirstMin] at h
    cases acc with
    | none => exact absurd (pickFirstMin_eq_none xs _ h).1 (by simp)
    | some b => exact absurd (pickFirstMin_eq_none xs _ h).1 (by simp)

/-- Characterization of the fold: its result splits the candidate list
(with the accumulator in front) into a strict-majorant prefix, the chosen
pair, and a weak-majorant suffix.  In particular the chosen pair is the
first occurrence of the minimum. -/
theorem pickFirstMin_spec :
    ∀ (xs : List (ℕ × ℝ)) (acc : Option (ℕ × ℝ)) (r : ℕ × ℝ),
      pickFirstMin acc xs = some r →
      ∃ pre post, acc.toList ++ xs = pre ++ r :: post
        ∧ (∀ y ∈ pre, r.2 < y.2) ∧ (∀ y ∈ post, r.2 ≤ y.2)
  | [], acc, r => by
    intro h
    cases acc with
    | none => simp [pickFirstMin] at h
    | some b =>
      simp only [pickFirstMin] at h
      cases h
      exact ⟨[], [], by simp, by simp, by simp⟩
  | x :: xs, acc, r => by
    intro h
    simp only [pickFirstMin] at h
    cases acc with
    | none =>
      obtain ⟨pre, post, heq, hpre, hpost⟩ := pickFirstMin_spec xs (some x) r h
      exact ⟨pre, post, by simpa using heq, hpre, hpost⟩
    | some b =>
      have h' : pickFirstMin (some (if x.2 < b.2 then x else b)) xs = some r := h
      by_cases hlt : x.2 < b.2
      · rw [if_pos hlt] at h'
        obtain ⟨pre, post, heq, hpre, hpost⟩ := pickFirstMin_spec xs (some x) r h'
        simp only [Option.toList_some, List.singleton_append] at heq
        have hrx : r.2 ≤ x.2 := by
          cases pre with
          | nil =>
            simp only [List.nil_append] at heq
            cases heq
            exact le_refl _
          | cons p ps =>
            simp only [List.cons_append] at heq
            have hx : x = p := (List.cons.injEq ..).mp heq |>.1
            exact le_of_lt (by rw [hx]; exact hpre p (List.mem_cons_self p ps))
        refine ⟨b :: pre, post, ?_, ?_, hpost⟩
        · simp [heq]
        · intro y hy
          rcases List.mem_cons.mp hy with hyb | hyp
          · exact hyb ▸ lt_of_le_of_lt hrx hlt
          · exact hpre y hyp
      · rw [if_neg hlt] at h'
        have hbx : b.2 ≤ x.2 := le_of_not_lt hlt
        obtain ⟨pre, post, heq, hpre, hpost⟩ := pickFirstMin_spec xs (some b) r h'
        simp only [Option.toList_some, List.singleton_append] at heq
        cases pre with
        | nil =>
          simp only [List.nil_append] at heq
          obtain ⟨hbr, hxs⟩ := (List.cons.injEq ..).mp heq
          refine ⟨[], x :: xs, by simp [hbr], by simp, ?_⟩
          intro y hy
          rcases List.mem_cons.mp hy with hyx | hyxs
          · exact hyx ▸ (hbr ▸ hbx)
          · exact hpost y (hxs ▸ hyxs)
        | cons p ps =>
          simp only [List.cons_append] at heq
          obtain ⟨hpb, hxs⟩ := (List.cons.injEq ..).mp heq
          have hrb : r.2 < b.2 := hpb ▸ hpre p (List.mem_cons_self p ps)
          refine ⟨b :: x :: ps, post, ?_, ?_, hpost⟩
          · simp [hxs]
          · intro y hy
            rcases List.mem_cons.mp hy with hyb | hy
            · exact hyb ▸ hrb
            rcases List.mem_cons.mp hy with hyx | hyp
            · exact hyx ▸ lt_of_lt_of_le hrb hbx
            · exact hpre y (List.mem_cons_of_mem p hyp)

theorem maneuverCands_index_ge (c : Coords) :
    ∀ (l : List RouteStep) (i : ℕ) (p : ℕ × ℝ), p ∈ maneuverCands c i l → i ≤ p.1
  | [], i, p => by simp [maneuverCands]
  | s :: rest, i, p => by
    cases hm : s.maneuver with
    | none =>
      intro hp
      simp only [maneuverCands, hm] at hp
      exact Nat.le_of_succ_le (maneuverCands_index_ge c rest (i + 1) p hp)
    | some m =>
      intro hp
      simp only [maneuverCands, hm, List.mem_cons] at hp
      rcases hp with h | h
      · simp [h]
      · exact Nat.le_of_succ_le (maneuverCands_index_ge c rest (i + 1) p h)

theorem maneuverCands_pairwise (c : Coords) :
    ∀ (l : List RouteStep) (i : ℕ),
      (maneuverCands c i l).Pairwise (fun p q => p.1 < q.1)
  | [], _ => by simp [maneuverCands]
  | s :: rest, i => by
    cases hm : s.maneuver with
    | none =>
      simp only [maneuverCands, hm]
      exact maneuverCands_pairwise c rest (i + 1)
    | some m =>
      simp only [maneuverCands, hm]
      refine List.Pairwise.cons ?_ (maneuverCands_pairwise c rest (i + 1))
      intro q hq
      exact Nat.lt_of_succ_le (maneuverCands_index_ge c rest (i + 1) q hq)

theorem maneuverCands_sound (c : Coords) :
    ∀ (l : List RouteStep) (i : ℕ) (p : ℕ × ℝ), p ∈ maneuverCands c i l →
      ∃ j, j < l.length ∧ p.1 = i + j ∧
        ∃ m, (l.getD j default).maneuver = some m
          ∧ p.2 = distanceToManeuver c m.location
  | [], i, p => by simp [maneuverCands]
  | s :: rest, i, p => by
    cases hm : s.maneuver with
    | none =>
      intro hp
      simp only [maneuverCands, hm] at hp
      obtain ⟨j, hj, hji, m, hmj, hd⟩ := maneuverCands_sound c rest (i + 1) p hp
      exact ⟨j + 1, by simpa using hj, by omega, m, by simpa using hmj, hd⟩
    | some m =>
      intro hp
      simp only [maneuverCands, hm, List.mem_cons] at hp
      rcases hp with h | h
      · subst h
        exact ⟨0, by simp, by simp, m, by simpa using hm, rfl⟩
      · obtain ⟨j, hj, hji, m', hmj, hd⟩ := maneuverCands_sound c rest (i + 1) p h
        exact ⟨j + 1, by simpa using hj, by omega, m', by simpa using hmj, hd⟩

theorem maneuverCands_complete (c : Coords) :
    ∀ (l : List RouteStep) (i : ℕ) (j : ℕ) (m : Maneuver),
      j < l.length → (l.getD j default).maneuver = some m →
      (i + j, distanceToManeuver c m.location) ∈ maneuverCands c i l
  | [], _, j, m => by simp
  | s :: rest, i, j, m => by
    intro hj hm
    cases j with
    | zero =>
      simp only [List.getD_cons_zero] at hm
      simp [maneuverCands, hm]
    | succ j =>
      simp only [List.getD_cons_succ] at hm
      have hj' : j < rest.length := by simpa using hj
      have hmem := maneuverCands_complete c rest (i + 1) j m hj' hm
      have hadd : i + (j + 1) = (i + 1) + j := by omega
      cases hsm : s.maneuver with
      | none =>
        simp only [maneuverCands, hsm]
        rw [hadd]
        exact hmem
      | some m0 =>
        simp only [maneuverCands, hsm, List.mem_cons]
        right
        rw [hadd]
        exact hmem

theorem maneuverCands_nil_of_no_maneuver (c : Coords) :
    ∀ (l : List RouteStep) (i : ℕ), (∀ s ∈ l, s.maneuver = none) →
      maneuverCands c i l = []
  | [], _, _ => rfl
  | s :: rest, i, h => by
    have hs : s.maneuver = none := h s (List.mem_cons_self s rest)
    simp only [maneuverCands, hs]
    exact maneuverCands_nil_of_no_maneuver c rest (i + 1)
      (fun t ht => h t (List.mem_cons_of_mem s ht))

theorem getD_eq_of_lt {l : List α} {n : ℕ} (h : n < l.length) (d : α) :
    l.getD n d = l.get ⟨n, h⟩ := by
  simp [List.getD_eq_getElem?_getD, List.getElem?_eq_getElem h]

/-- C8: when no step of the active route bears a maneuver — in particular
when the step list is empty — a position update produces the empty
guidance state (null index, null text, null distance); the engine emits
this GuidanceGap without failing. -/
theorem C8_no_maneuver_empty_guidance (steps : List RouteStep) (c : Coords)
    (h : ∀ s ∈ steps, s.maneuver = none) :
    computeGuidance steps c =
      { nextStepIndex := none, distanceToManeuverMeters := none, text := none } := by
  have hcands := maneuverCands_nil_of_no_maneuver c steps 0 h
  simp only [computeGuidance, scanSteps_eq_pickFirstMin c steps 0 none, hcands]
  rfl

theorem C8_witness :
    computeGuidance [] ⟨0, 0⟩ =
      { nextStepIndex := none, distanceToManeuverMeters := none, text := none } :=
  C8_no_maneuver_empty_guidance [] ⟨0, 0⟩ (by simp)

/-- The instruction text with the exact wording of claim C1: the maneuver
type, or Proceed only when the type is absent; a space plus the modifier
whenever the modifier is present; the literal on plus the street name when
the name is non-empty. -/
def claimInstructionText (s : RouteStep) : String :=
  let action :=
    match s.maneuver.bind Maneuver.type with
    | some t => t
    | none => "Proceed"
  let modifier :=
    match s.maneuver.bind Maneuver.modifier with
    | some m => " " ++ m
    | none => ""
  let road := if s.name = "" then "" else " on " ++ s.name
  action ++ modifier ++ road

/-- The instruction text as amended: additionally fall back to Proceed
when the type is present but empty, and omit the modifier when it is
present but empty. -/
def specInstructionText (s : RouteStep) : String :=
  let action :=
    match s.maneuver.bind Maneuver.type with
    | some t => if t = "" then "Proceed" else t
    | none => "Proceed"
  let modifier :=
    match s.maneuver.bind Maneuver.modifier with
    | some m => if m = "" then "" else " " ++ m
    | none => ""
  let road := if s.name = "" then "" else " on " ++ s.name
  action ++ modifier ++ road

theorem formatInstruction_eq_spec (s : RouteStep) :
    formatInstruction s = specInstructionText s := by
  simp only [formatInstruction, specInstructionText, jsOrStr]

/-- Concrete input refuting C1 as stated: a maneuver whose type and
modifier are present but empty strings. -/
def cexStep : RouteStep :=
  { name := ""
    distance := 0
    duration := 0
    maneuver := some { type := some "", modifier := some "", location := (0, 0) } }

theorem scan_cexStep :
    scanSteps ⟨0, 0⟩ 0 [cexStep] none = some (0, 0) := by
  simp [scanSteps, cexStep, distanceToManeuver, haversine_self]

/-- Counterexample to C1 as stated: with a present-but-empty type and
modifier the callback emits the text Proceed, while the claim words
compose the text as a single space; the step in question is the selected
one. -/
theorem C1_counterexample :
    (computeGuidance [cexStep] ⟨0, 0⟩).nextStepIndex = some 0
    ∧ (computeGuidance [cexStep] ⟨0, 0⟩).text = some "Proceed"
    ∧ claimInstructionText (([cexStep] : List RouteStep).getD 0 default) = " "
    ∧ (computeGuidance [cexStep] ⟨0, 0⟩).text
        ≠ some (claimInstructionText (([cexStep] : List RouteStep).getD 0 default)) := by
  have hg : computeGuidance [cexStep] ⟨0, 0⟩ =
      { nextStepIndex := some 0, distanceToManeuverMeters := some 0
        text := some "Proceed" } := by
    simp only [computeGuidance, scan_cexStep]
    simp [formatInstruction, jsOrStr, cexStep]
  refine ⟨by rw [hg], by rw [hg], by decide, by rw [hg]; decide⟩

theorem scan_some_of_maneuver (steps : List RouteStep) (c : Coords)
    (hman : ∃ s ∈ steps, s.maneuver.isSome) :
    ∃ r, scanSteps c 0 steps none = some r := by
  obtain ⟨s0, hs0mem, hs0some⟩ := hman
  obtain ⟨m0, hm0⟩ := Option.isSome_iff_exists.mp hs0some
  obtain ⟨j, hj, hjs⟩ := List.mem_iff_getElem.mp hs0mem
  have hget : steps.getD j default = s0 := by
    rw [getD_eq_of_lt hj]
    simpa [List.get_eq_getElem] using hjs
  have hmem := maneuverCands_complete c steps 0 j m0 hj (by rw [hget]; exact hm0)
  rw [scanSteps_eq_pickFirstMin c steps 0 none]
  cases hpick : pickFirstMin none (maneuverCands c 0 steps) with
  | none =>
    have := (pickFirstMin_eq_none _ _ hpick).2
    rw [this] at hmem
    exact absurd hmem (List.not_mem_nil _)
  | some r => exact ⟨r, rfl⟩

/-- C1 (amended): on a position update over a step list with at least one
maneuver-bearing step, the engine measures every maneuver-bearing step by
the haversine distance from the position to the maneuver location after
swapping the service (longitude, latitude) pair into (lat, lon) order,
selects a step attaining the minimal such distance, reports the rounded
minimal distance, and composes the guidance text from the type (falling
back to Proceed when the type is absent or empty), a space plus the
modifier when the modifier is present and non-empty, and the literal on
plus the street name when the name is non-empty. -/
theorem C1_guidance_update (steps : List RouteStep) (c : Coords)
    (hman : ∃ s ∈ steps, s.maneuver.isSome) :
    ∃ i d, i < steps.length
      ∧ (∃ m, (steps.getD i default).maneuver = some m
          ∧ d = haversine c ⟨m.location.2, m.location.1⟩)
      ∧ (∀ s ∈ steps, ∀ m, s.maneuver = some m →
          d ≤ haversine c ⟨m.location.2, m.location.1⟩)
      ∧ computeGuidance steps c =
          { nextStepIndex := some i
            distanceToManeuverMeters := some (round d)
            text := some (specInstructionText (steps.getD i default)) } := by
  obtain ⟨r, hscan⟩ := scan_some_of_maneuver steps c hman
  have hpick : pickFirstMin none (maneuverCands c 0 steps) = some r := by
    rw [← scanSteps_eq_pickFirstMin c steps 0 none]; exact hscan
  obtain ⟨pre, post, heq, hpre, hpost⟩ := pickFirstMin_spec _ _ _ hpick
  simp only [Option.toList_none, List.nil_append] at heq
  have hrmem : r ∈ maneuverCands c 0 steps := by
    rw [heq]; exact List.mem_append_right pre (List.mem_cons_self r post)
  obtain ⟨j, hj, hji, m, hmj, hd⟩ := maneuverCands_sound c steps 0 r hrmem
  simp only [Nat.zero_add] at hji
  refine ⟨r.1, r.2, hji ▸ hj, ⟨m, by rw [hji]; exact hmj, by rw [hd]; rfl⟩, ?_, ?_⟩
  · intro s hs m' hm'
    obtain ⟨k, hk, hks⟩ := List.mem_iff_getElem.mp hs
    have hgetk : steps.getD k default = s := by
      rw [getD_eq_of_lt hk]
      simpa [List.get_eq_getElem] using hks
    have hmemk := maneuverCands_complete c steps 0 k m' hk (by rw [hgetk]; exact hm')
    rw [heq] at hmemk
    have hdist : r.2 ≤ distanceToManeuver c m'.location := by
      rcases List.mem_append.mp hmemk with hp | hp
      · exact le_of_lt (hpre _ hp)
      · rcases List.mem_cons.mp hp with hp | hp
        · rw [← hp]
        · exact hpost _ hp
    exact hdist
  · simp only [computeGuidance, hscan]
    rw [formatInstruction_eq_spec]

theorem C1_witness :
    ∃ i d, i < ([cexStep] : List RouteStep).length
      ∧ (∃ m, (([cexStep] : List RouteStep).getD i default).maneuver = some m
          ∧ d = haversine ⟨0, 0⟩ ⟨m.location.2, m.location.1⟩)
      ∧ (∀ s ∈ ([cexStep] : List RouteStep), ∀ m, s.maneuver = some m →
          d ≤ haversine ⟨0, 0⟩ ⟨m.location.2, m.location.1⟩)
      ∧ computeGuidance [cexStep] ⟨0, 0⟩ =
          { nextStepIndex := some i
            distanceToManeuverMeters := some (round d)
            text := some (specInstructionText (([cexStep] : List RouteStep).getD i default)) } :=
  C1_guidance_update [cexStep] ⟨0, 0⟩ ⟨cexStep, by simp [cexStep]⟩

/-- C10: when several maneuver-bearing steps tie for the minimal distance
the one with the lowest index is selected — every maneuver-bearing step
strictly before the selected one is strictly farther, because the scan
replaces the running best only on strict decrease; the selection is a
function of the step list and the coordinate by construction. -/
theorem C10_tie_break_lowest_index (steps : List RouteStep) (c : Coords) (i : ℕ)
    (h : (computeGuidance steps c).nextStepIndex = some i) :
    ∃ mi, (steps.getD i default).maneuver = some mi ∧
      ∀ j, j < i → ∀ m, (steps.getD j default).maneuver = some m →
        haversine c ⟨mi.location.2, mi.location.1⟩ < haversine c ⟨m.location.2, m.location.1⟩ := by
  cases hscan : scanSteps c 0 steps none with
  | none => simp [computeGuidance, hscan] at h
  | some r =>
    have hri : r.1 = i := by
      obtain ⟨ri, rd⟩ := r
      simpa [computeGuidance, hscan] using h
    have hpick : pickFirstMin none (maneuverCands c 0 steps) = some r := by
      rw [← scanSteps_eq_pickFirstMin c steps 0 none]; exact hscan
    obtain ⟨pre, post, heq, hpre, hpost⟩ := pickFirstMin_spec _ _ _ hpick
    simp only [Option.toList_none, List.nil_append] at heq
    have hrmem : r ∈ maneuverCands c 0 steps := by
      rw [heq]; exact List.mem_append_right pre (List.mem_cons_self r post)
    obtain ⟨j, hj, hji, mi, hmj, hd⟩ := maneuverCands_sound c steps 0 r hrmem
    simp only [Nat.zero_add] at hji
    have hpair := maneuverCands_pairwise c steps 0
    rw [heq] at hpair
    obtain ⟨-, hpair2, -⟩ := List.pairwise_append.mp hpair
    have hpost_idx : ∀ q ∈ post, r.1 < q.1 := (List.pairwise_cons.mp hpair2).1
    refine ⟨mi, by rw [← hri, hji]; exact hmj, ?_⟩
    intro k hk m hm
    have hkl : k < steps.length := lt_trans hk (hri ▸ hji ▸ hj)
    have hmemk := maneuverCands_complete c steps 0 k m hkl hm
    rw [heq] at hmemk
    have hlt : r.2 < distanceToManeuver c m.location := by
      rcases List.mem_append.mp hmemk with hp | hp
      · exact hpre _ hp
      · rcases List.mem_cons.mp hp with hp | hp
        · exfalso
          have h1 : (0 + k : ℕ) = r.1 := congrArg Prod.fst hp
          omega
        · exfalso
          have h1 := hpost_idx _ hp
          simp only [Nat.zero_add] at h1
          omega
    calc haversine c ⟨mi.location.2, mi.location.1⟩ = r.2 := by rw [hd]; rfl
      _ < haversine c ⟨m.location.2, m.location.1⟩ := hlt

/-- Two identical maneuver-bearing steps: both tie at distance zero from
the origin, so selection exercises the tie-break. -/
def tieStep : RouteStep :=
  { name := "A", distance := 0, duration := 0
    maneuver := some { type := some "turn", modifier := none, location := (0, 0) } }

theorem scan_tieSteps :
    scanSteps ⟨0, 0⟩ 0 [tieStep, tieStep] none = some (0, 0) := by
  simp [scanSteps, tieStep, distanceToManeuver, haversine_self]

theorem C10_witness :
    ∃ mi, (([tieStep, tieStep] : List RouteStep).getD 0 default).maneuver = some mi ∧
      ∀ j, j < 0 → ∀ m, (([tieStep, tieStep] : List RouteStep).getD j default).maneuver = some m →
        haversine ⟨0, 0⟩ ⟨mi.location.2, mi.location.1⟩
          < haversine ⟨0, 0⟩ ⟨m.location.2, m.location.1⟩ :=
  C10_tie_break_lowest_index [tieStep, tieStep] ⟨0, 0⟩ 0
    (by simp [computeGuidance, scan_tieSteps])

/-- A point of interest produced by the Overpass query, source type
Place. -/
structure Place where
  id : String
  name : String
  category : String
  lat : ℝ
  lon : ℝ
  distanceMeters : Option ℤ

/-- The optional centroid of an area feature. -/
structure OverpassCenter where
  lat : Option ℝ
  lon : Option ℝ

/-- The tag map of a raw feature. -/
structure OverpassTags where
  name : Option String
  amenity : Option String
  tourism : Option String

/-- A raw Overpass feature, source type OverpassElement. -/
structure OverpassElement where
  id : ℤ
  lat : Option ℝ
  lon : Option ℝ
  center : Option OverpassCenter
  tags : Option OverpassTags

/-- The per-feature resolution inside fetchOverpassPlaces: the point
coordinate when numeric, else the centroid coordinate, else 0; the
display name with the Unknown fallback; the effective category from the
amenity tag, then the tourism tag, then the requested category; and
distanceMeters populated only when both resolved coordinates are truthy,
that is nonzero. -/
noncomputable def resolvePlace (coords : Coords) (category : String)
    (el : OverpassElement) : Place :=
  let lat := match el.lat with
    | some v => v
    | none => (el.center.bind OverpassCenter.lat).getD 0
  let lon := match el.lon with
    | some v => v
    | none => (el.center.bind OverpassCenter.lon).getD 0
  { id := toString el.id
    name := jsOrStr (el.tags.bind OverpassTags.name) "Unknown"
    category := jsOrStr (el.tags.bind OverpassTags.amenity)
      (jsOrStr (el.tags.bind OverpassTags.tourism) category)
    lat := lat
    lon := lon
    distanceMeters :=
      if lat ≠ 0 ∧ lon ≠ 0 then some (round (haversine coords ⟨lat, lon⟩))
      else none }

/-- The sort key of the source comparator: distanceMeters, defaulting to
0 when absent. -/
def placeKey (p : Place) : ℤ := p.distanceMeters.getD 0

/-- The pure tail of fetchOverpassPlaces on a parsed body: resolve every
raw feature, drop the places with a falsy coordinate, and sort ascending
by the distance key with the stable platform sort (modelled by the stable
mergeSort). -/
noncomputable def overpassPlaces (elements : List OverpassElement)
    (coords : Coords) (category : String) : List Place :=
  ((elements.map (resolvePlace coords category)).filter
      (fun p => decide (p.lat ≠ 0 ∧ p.lon ≠ 0))).mergeSort
    (fun a b => decide (placeKey a ≤ placeKey b))

/-- Result of one fetch call: a non-success HTTP status or a body. -/
inductive FetchResult (α : Type) where
  | httpError (status : ℕ)
  | ok (body : α)

/-- A fetched Overpass body: either a body on which the JSON parse of
res.json throws, or parsed JSON whose elements field may be missing or
not an array. -/
inductive OverpassBody where
  | invalidJson
  | json (elements : Option (List OverpassElement))

/-- Source fetchOverpassPlaces after the fetch resolves (the radius only
enters the query URL): a non-success status throws, an unparsable body
throws inside res.json, a parsed body without an elements array yields
the empty feature list, and otherwise the resolved, filtered, sorted
places are returned.  Thrown errors are modelled by the error branch. -/
noncomputable def fetchOverpassPlaces (coords : Coords) (category : String)
    (res : FetchResult OverpassBody) : Except String (List Place) :=
  match res with
  | .httpError status => .error ("Overpass error: " ++ toString status)
  | .ok .invalidJson => .error "Unexpected token in JSON"
  | .ok (.json elements) =>
    .ok (overpassPlaces (elements.getD []) coords category)

/-- One leg of an OSRM route alternative. -/
structure OSRMLeg where
  steps : List RouteStep

/-- One OSRM route alternative: raw (lon, lat) geometry pairs and legs. -/
structure OSRMRoute where
  geometry : List (ℝ × ℝ)
  legs : List OSRMLeg

/-- The OSRM response body, source type OSRMRouteResponse. -/
structure OSRMRouteResponse where
  routes : List OSRMRoute

/-- The TourGuide component state, restricted to what the navigation
engine reads and writes: current coordinate, POI result list, route
steps, the live watch subscription id, next-turn banner text and
distance, the next-turn marker position (lat, lon), the drawn route
polyline as a (lat, lon) list, and the assistant message log. -/
structure TourState where
  coords : Option Coords
  places : List Place
  routeSteps : List RouteStep
  watchId : Option ℕ
  nextTurnText : Option String
  nextTurnDistance : Option ℤ
  nextTurnMarker : Option (ℝ × ℝ)
  routePolyline : Option (List (ℝ × ℝ))
  messages : List String

/-- Source clearRoute: remove the polyline, empty the steps, null the
banner text and distance, remove the next-turn marker, and cancel the
watch. -/
def clearRoute (st : TourState) : TourState :=
  { st with
    routePolyline := none
    routeSteps := []
    nextTurnText := none
    nextTurnDistance := none
    nextTurnMarker := none
    watchId := none }

/-- The guidance effect of the component: with no coordinate or an empty
step list any active watch is cancelled and none is started; otherwise,
when a watch is already active the effect returns early and starts no
second one; otherwise a watch with a fresh platform id is started. -/
def syncWatch (st : TourState) (freshId : ℕ) : TourState :=
  if st.coords.isNone || st.routeSteps.isEmpty then
    { st with watchId := none }
  else if st.watchId.isSome then st
  else { st with watchId := some freshId }

/-- Delivery of one successful position update.  The platform invokes the
callback only while the subscription is live, so delivery on a cancelled
watch changes nothing; otherwise the callback stores the coordinate,
recomputes guidance over the current steps, and when a maneuver was
selected also moves or creates the next-turn marker at the selected
maneuver location in (lat, lon) order. -/
noncomputable def positionUpdate (st : TourState) (p : Coords) : TourState :=
  if st.watchId.isNone then st
  else
    let g := computeGuidance st.routeSteps p
    match g.nextStepIndex with
    | some i =>
      { st with
        coords := some p
        nextTurnDistance := g.distanceToManeuverMeters
        nextTurnText := g.text
        nextTurnMarker :=
          match (st.routeSteps.getD i default).maneuver with
          | some m => some (m.location.2, m.location.1)
          | none => st.nextTurnMarker }
    | none =>
      { st with coords := some p, nextTurnText := none, nextTurnDistance := none }

/-- The watchPosition error callback: the source only logs a warning, so
every component of the state, the subscription included, is untouched. -/
def positionError (st : TourState) : TourState := st

/-- Source routeTo with the fetch outcome passed explicitly.  Without a
coordinate no request is made.  A non-success status throws, and so does
a response with zero route alternatives; both throws happen before any
state is touched and the catch only appends a message.  On success the
polyline is replaced by the (lat, lon) swapped geometry of the first
alternative and the steps by the steps of its first leg (empty when the
response has no legs). -/
def routeTo (st : TourState) (res : FetchResult OSRMRouteResponse) : TourState :=
  if st.coords.isNone then
    { st with messages := st.messages ++ ["Share your location to draw a route."] }
  else
    match res with
    | .httpError _ =>
      { st with messages := st.messages ++ ["Could not draw route on the map."] }
    | .ok data =>
      match data.routes with
      | [] => { st with messages := st.messages ++ ["Could not draw route on the map."] }
      | route :: _ =>
        { st with
          routePolyline := some (route.geometry.map (fun q => (q.2, q.1)))
          routeSteps := ((route.legs.head?).map OSRMLeg.steps).getD [] }

/-- The summary message of loadPOIs: the first five places formatted and
joined, then a Nearby or a No nearby message. -/
def poiSummary (category : String) (results : List Place) : String :=
  let summary := String.intercalate ", "
    ((results.take 5).map (fun p =>
      p.name ++ " (" ++ p.category ++ ", "
        ++ (match p.distanceMeters with
            | some d => toString d
            | none => "?")
        ++ "m)"))
  if summary = "" then "No nearby " ++ category ++ " found."
  else "Nearby " ++ category ++ ": " ++ summary

/-- Source loadPOIs: without a coordinate only a prompt message is
appended; on a successful fetch the places are replaced wholesale and a
summary message appended; on a failed fetch the catch leaves the places
as they are and appends only the fallback message. -/
noncomputable def loadPOIs (st : TourState) (category : String)
    (res : FetchResult OverpassBody) : TourState :=
  match st.coords with
  | none =>
    { st with messages := st.messages ++ ["Please share your location first."] }
  | some c =>
    match fetchOverpassPlaces c category res with
    | .ok results =>
      { st with places := results
                messages := st.messages ++ [poiSummary category results] }
    | .error _ =>
      { st with messages := st.messages ++ ["Could not load nearby places right now."] }

/-- C2: watch lifecycle discipline.  An effect pass with a coordinate and
a non-empty step list starts no second watch while one is active; losing
the coordinate or emptying the steps cancels the watch; clearing the
route cancels the watch, removes the next-turn marker and nulls the
guidance text and distance; and a position update delivered after the
clear leaves the cleared state untouched, so no guidance is emitted. -/
theorem C2_watch_lifecycle (st : TourState) (freshId : ℕ) (p : Coords) :
    (st.watchId.isSome → st.coords.isSome → st.routeSteps ≠ [] →
      syncWatch st freshId = st)
    ∧ ((st.coords.isNone ∨ st.routeSteps = []) →
      (syncWatch st freshId).watchId = none)
    ∧ (clearRoute st).watchId = none
    ∧ (clearRoute st).nextTurnMarker = none
    ∧ (clearRoute st).nextTurnText = none
    ∧ (clearRoute st).nextTurnDistance = none
    ∧ (clearRoute st).routeSteps = []
    ∧ positionUpdate (clearRoute st) p = clearRoute st := by
  refine ⟨?_, ?_, rfl, rfl, rfl, rfl, rfl, rfl⟩
  · intro hw hc hs
    have hc' : st.coords.isNone = false := by
      cases h : st.coords
      · rw [h] at hc; simp at hc
      · rfl
    have hs' : st.routeSteps.isEmpty = false := by
      cases h : st.routeSteps
      · exact absurd h hs
      · rfl
    simp [syncWatch, hc', hs', hw]
  · intro h
    rcases h with h | h
    · simp [syncWatch, h]
    · simp [syncWatch, h]

def demoState : TourState :=
  { coords := some ⟨0, 0⟩
    places := []
    routeSteps := [tieStep]
    watchId := some 7
    nextTurnText := none
    nextTurnDistance := none
    nextTurnMarker := none
    routePolyline := none
    messages := [] }

theorem C2_witness :
    syncWatch demoState 9 = demoState
    ∧ positionUpdate (clearRoute demoState) ⟨1, 1⟩ = clearRoute demoState :=
  ⟨(C2_watch_lifecycle demoState 9 ⟨1, 1⟩).1 rfl rfl (by simp [demoState]),
    (C2_watch_lifecycle demoState 9 ⟨1, 1⟩).2.2.2.2.2.2.2⟩

/-- C9: a position-update error is ignored: the error callback leaves
every component of the state — coordinate, banner text, distance, marker,
steps, places and the live watch — exactly as it was, so the watch stays
active and guiding is never ended by a position error. -/
theorem C9_position_error_ignored (st : TourState) :
    positionError st = st
    ∧ (positionError st).watchId = st.watchId
    ∧ (positionError st).nextTurnText = st.nextTurnText
    ∧ (positionError st).nextTurnDistance = st.nextTurnDistance
    ∧ (positionError st).nextTurnMarker = st.nextTurnMarker
    ∧ (positionError st).coords = st.coords
    ∧ (positionError st).routeSteps = st.routeSteps :=
  ⟨rfl, rfl, rfl, rfl, rfl, rfl, rfl⟩

/-- C4: routeTo fails both on a non-success status and on a response with
zero route alternatives, and on each failure the state — polyline, steps
and all guidance fields — is untouched except for the appended failure
message: the route is never partially applied. -/
theorem C4_routeTo_failure_keeps_route (st : TourState) (c : Coords)
    (hc : st.coords = some c) (status : ℕ) :
    routeTo st (.httpError status)
        = { st with messages := st.messages ++ ["Could not draw route on the map."] }
    ∧ routeTo st (.ok ⟨[]⟩)
        = { st with messages := st.messages ++ ["Could not draw route on the map."] } := by
  constructor <;> simp [routeTo, hc]

theorem C4_witness :
    routeTo demoState (.httpError 500)
        = { demoState with
            messages := demoState.messages ++ ["Could not draw route on the map."] }
    ∧ routeTo demoState (.ok ⟨[]⟩)
        = { demoState with
            messages := demoState.messages ++ ["Could not draw route on the map."] } :=
  C4_routeTo_failure_keeps_route demoState ⟨0, 0⟩ rfl 500

/-- C5: a non-success status and an unparsable body each surface from
fetchOverpassPlaces as a single error carrying no places, and loadPOIs
then leaves the prior places untouched, appending only the fallback
message. -/
theorem C5_findNearby_failure (st : TourState) (c : Coords)
    (hc : st.coords = some c) (category : String) (status : ℕ) :
    fetchOverpassPlaces c category (.httpError status)
        = .error ("Overpass error: " ++ toString status)
    ∧ fetchOverpassPlaces c category (.ok .invalidJson)
        = .error "Unexpected token in JSON"
    ∧ loadPOIs st category (.httpError status)
        = { st with
            messages := st.messages ++ ["Could not load nearby places right now."] }
    ∧ loadPOIs st category (.ok .invalidJson)
        = { st with
            messages := st.messages ++ ["Could not load nearby places right now."] } := by
  refine ⟨rfl, rfl, ?_, ?_⟩ <;> simp [loadPOIs, hc, fetchOverpassPlaces]

theorem C5_witness :
    fetchOverpassPlaces ⟨0, 0⟩ "cafe" (.httpError 502)
        = .error ("Overpass error: " ++ toString 502)
    ∧ fetchOverpassPlaces ⟨0, 0⟩ "cafe" (.ok .invalidJson)
        = .error "Unexpected token in JSON"
    ∧ loadPOIs demoState "cafe" (.httpError 502)
        = { demoState with
            messages := demoState.messages ++ ["Could not load nearby places right now."] }
    ∧ loadPOIs demoState "cafe" (.ok .invalidJson)
        = { demoState with
            messages := demoState.messages ++ ["Could not load nearby places right now."] } :=
  C5_findNearby_failure demoState ⟨0, 0⟩ rfl "cafe" 502

/-- C6: a successful plan depends only on the first route alternative,
takes exactly the steps of the first leg (a multi-leg response is
truncated to it), and swaps every geometry pair from (lon, lat) into
(lat, lon): the k-th polyline point has lat equal to the second component
of the k-th response pair and lon equal to the first. -/
theorem C6_routeTo_success (st : TourState) (c : Coords)
    (hc : st.coords = some c) (route : OSRMRoute) (rest : List OSRMRoute) :
    routeTo st (.ok ⟨route :: rest⟩) = routeTo st (.ok ⟨[route]⟩)
    ∧ (∀ leg legs2, route.legs = leg :: legs2 →
        (routeTo st (.ok ⟨route :: rest⟩)).routeSteps = leg.steps)
    ∧ (routeTo st (.ok ⟨route :: rest⟩)).routePolyline
        = some (route.geometry.map (fun q => (q.2, q.1)))
    ∧ (∀ k : ℕ,
        ((((routeTo st (.ok ⟨route :: rest⟩)).routePolyline.getD []).getD k (0, 0)).1
            = (route.geometry.getD k (0, 0)).2)
        ∧ ((((routeTo st (.ok ⟨route :: rest⟩)).routePolyline.getD []).getD k (0, 0)).2
            = (route.geometry.getD k (0, 0)).1)) := by
  have hn : st.coords.isNone = false := by rw [hc]; rfl
  refine ⟨by simp [routeTo, hn], ?_, ?_, ?_⟩
  · intro leg legs2 hlegs
    simp [routeTo, hn, hlegs]
  · simp [routeTo, hn]
  · intro k
    simp only [routeTo, hn, Bool.false_eq_true, if_false, Option.getD_some,
      List.getD_eq_getElem?_getD, List.getElem?_map]
    cases route.geometry[k]? with
    | none => exact ⟨rfl, rfl⟩
    | some q => exact ⟨rfl, rfl⟩

def demoRoute : OSRMRoute :=
  { geometry := [(10, 20), (30, 40)]
    legs := [⟨[tieStep]⟩, ⟨[]⟩] }

theorem C6_witness :
    routeTo demoState (.ok ⟨[demoRoute, ⟨[], []⟩]⟩)
        = routeTo demoState (.ok ⟨[demoRoute]⟩)
    ∧ (∀ leg legs2, demoRoute.legs = leg :: legs2 →
        (routeTo demoState (.ok ⟨[demoRoute, ⟨[], []⟩]⟩)).routeSteps = leg.steps)
    ∧ (routeTo demoState (.ok ⟨[demoRoute, ⟨[], []⟩]⟩)).routePolyline
        = some (demoRoute.geometry.map (fun q => (q.2, q.1)))
    ∧ (∀ k : ℕ,
        ((((routeTo demoState (.ok ⟨[demoRoute, ⟨[], []⟩]⟩)).routePolyline.getD
              []).getD k (0, 0)).1
            = (demoRoute.geometry.getD k (0, 0)).2)
        ∧ ((((routeTo demoState (.ok ⟨[demoRoute, ⟨[], []⟩]⟩)).routePolyline.getD
              []).getD k (0, 0)).2
            = (demoRoute.geometry.getD k (0, 0)).1)) :=
  C6_routeTo_success demoState ⟨0, 0⟩ rfl demoRoute [⟨[], []⟩]

theorem placeLE_trans (a b c : Place) :
    decide (placeKey a ≤ placeKey b) → decide (placeKey b ≤ placeKey c) →
    decide (placeKey a ≤ placeKey c) := by
  simp only [decide_eq_true_eq]
  exact le_trans

theorem placeLE_total (a b : Place) :
    decide (placeKey a ≤ placeKey b) || decide (placeKey b ≤ placeKey a) := by
  simp only [Bool.or_eq_true, decide_eq_true_eq]
  exact le_total _ _

theorem resolvePlace_distanceMeters (coords : Coords) (category : String)
    (el : OverpassElement) :
    (resolvePlace coords category el).distanceMeters
      = if (resolvePlace coords category el).lat ≠ 0
            ∧ (resolvePlace coords category el).lon ≠ 0
        then some (round (haversine coords ⟨(resolvePlace coords category el).lat,
          (resolvePlace coords category el).lon⟩))
        else none := rfl

/-- C3: every result list of the place query pipeline is sorted ascending
by the distance key, is a permutation of the resolved-and-kept places (so
a feature without a resolvable nonzero coordinate contributes nothing),
keeps tied places in original service order (the filter at every key
value equals the pre-sort filter), contains only places with nonzero
coordinates, and gives every contained place the rounded haversine
distance from the query center. -/
theorem C3_findNearby_result_invariant (elements : List OverpassElement)
    (coords : Coords) (category : String) :
    ((overpassPlaces elements coords category).Pairwise
      (fun a b => placeKey a ≤ placeKey b))
    ∧ (overpassPlaces elements coords category).Perm
        ((elements.map (resolvePlace coords category)).filter
          (fun p => decide (p.lat ≠ 0 ∧ p.lon ≠ 0)))
    ∧ (∀ v : ℤ, (overpassPlaces elements coords category).filter
          (fun p => decide (placeKey p = v))
        = ((elements.map (resolvePlace coords category)).filter
            (fun p => decide (p.lat ≠ 0 ∧ p.lon ≠ 0))).filter
            (fun p => decide (placeKey p = v)))
    ∧ (∀ p ∈ overpassPlaces elements coords category,
        p.lat ≠ 0 ∧ p.lon ≠ 0
          ∧ p.distanceMeters = some (round (haversine coords ⟨p.lat, p.lon⟩))) := by
  refine ⟨?_, ?_, ?_, ?_⟩
  · have hs := List.sorted_mergeSort placeLE_trans placeLE_total
      ((elements.map (resolvePlace coords category)).filter
        (fun p => decide (p.lat ≠ 0 ∧ p.lon ≠ 0)))
    exact hs.imp (fun h => of_decide_eq_true h)
  · exact List.mergeSort_perm _ _
  · intro v
    set base := (elements.map (resolvePlace coords category)).filter
      (fun p => decide (p.lat ≠ 0 ∧ p.lon ≠ 0)) with hbase
    have hpw : (base.filter (fun p => decide (placeKey p = v))).Pairwise
        (fun a b => decide (placeKey a ≤ placeKey b)) := by
      apply List.pairwise_of_forall_mem_list
      intro a ha b hb
      have hav : placeKey a = v := of_decide_eq_true (List.mem_filter.mp ha).2
      have hbv : placeKey b = v := of_decide_eq_true (List.mem_filter.mp hb).2
      exact decide_eq_true (by rw [hav, hbv])
    have h1 : List.Sublist (base.filter (fun p => decide (placeKey p = v)))
        (overpassPlaces elements coords category) :=
      List.sublist_mergeSort placeLE_trans placeLE_total hpw (List.filter_sublist base)
    have h2 : (base.filter (fun p => decide (placeKey p = v))).filter
        (fun p => decide (placeKey p = v))
        = base.filter (fun p => decide (placeKey p = v)) := by
      simp only [List.filter_filter, Bool.and_self]
    have h3 := List.Sublist.filter (fun p => decide (placeKey p = v)) h1
    rw [h2] at h3
    have hperm : List.Perm ((overpassPlaces elements coords category).filter
          (fun p => decide (placeKey p = v)))
        (base.filter (fun p => decide (placeKey p = v))) :=
      (List.mergeSort_perm base _).filter _
    exact (List.Sublist.eq_of_length h3 hperm.length_eq.symm).symm
  · intro p hp
    have hpbase : p ∈ (elements.map (resolvePlace coords category)).filter
        (fun q => decide (q.lat ≠ 0 ∧ q.lon ≠ 0)) := List.mem_mergeSort.mp hp
    obtain ⟨hpmap, hpkeep⟩ := List.mem_filter.mp hpbase
    obtain ⟨hlat, hlon⟩ := of_decide_eq_true hpkeep
    obtain ⟨el, -, hel⟩ := List.mem_map.mp hpmap
    refine ⟨hlat, hlon, ?_⟩
    rw [← hel, resolvePlace_distanceMeters, if_pos]
    rw [hel]
    exact ⟨hlat, hlon⟩
